import Mathlib

/-!
Verification development for the `microsim` repository.

Two parts are embedded here:

* the N-dimensional Bresenham line rasterizer `drawlines_bresenham`
  (2D and 3D), whose implementation is absent from the repository
  sources (only `tests/test_bresenham.py` exercises it), so it is
  modelled from the specification's normative algorithm description
  (spec §4.1, §7);
* the `CosemDataset.read_source` and `CosemDataset.view` methods of
  `microsim/samples/_cosem.py`, embedded directly from the source.
-/

/-! ## Integer sign, as used for the Bresenham step directions -/

/-- Integer sign: `1` for positive, `-1` for negative, `0` for zero
(the behaviour of `np.sign` on integers). -/
def isign (a : Int) : Int :=
  if 0 < a then 1 else if a < 0 then -1 else 0

/-! ## 2D Bresenham -/

/-- Modelled from the spec: the loop of the classic 2D Bresenham
algorithm of spec §4.1 (the implementation of `drawlines_bresenham`
is missing from the repository sources).  State is the current cell
`(x, y)` and the error accumulator `err`; each iteration marks the
current cell, stops if it is the end point, and otherwise advances
`x` by `sx` when `2*err > -dy` (decrementing `err` by `dy`) and `y`
by `sy` when `2*err < dx` (incrementing `err` by `dx`), both guards
reading the same snapshot of `err`.  `fuel` bounds the iteration
count; it is always called with enough fuel (`dx + dy + 1`). -/
def bres2Loop (x1 y1 sx sy dx dy : Int) : Nat → Int → Int → Int → List (Int × Int)
  | 0, _, _, _ => []
  | fuel+1, x, y, err =>
    (x, y) ::
      (if x = x1 ∧ y = y1 then []
       else
         bres2Loop x1 y1 sx sy dx dy fuel
           (if 2*err > -dy then x + sx else x)
           (if 2*err < dx then y + sy else y)
           ((if 2*err > -dy then err - dy else err) + (if 2*err < dx then dx else 0)))

/-- Modelled from the spec: the cells marked by rasterizing the 2D
segment `(x0,y0) → (x1,y1)` per spec §4.1 (`dx = |x1-x0|`,
`dy = |y1-y0|`, `sx = sign (x1-x0)`, `sy = sign (y1-y0)`, initial
error `dx - dy`, terminate at the end point). -/
def bres2 (x0 y0 x1 y1 : Int) : List (Int × Int) :=
  bres2Loop x1 y1 (isign (x1 - x0)) (isign (y1 - y0)) |x1 - x0| |y1 - y0|
    (|x1 - x0| + |y1 - y0| + 1).toNat x0 y0 (|x1 - x0| - |y1 - y0|)

/-! ## 3D Bresenham -/

/-- Modelled from the spec: the driving-axis loop of the 3D Bresenham
generalization of spec §4.1, written with the driving coordinate `d`
first and the two passive coordinates `a`, `b` after it.  Each
iteration marks the current cell then steps `d` by `sd`; the passive
coordinates step by `sa` / `sb` exactly when their accumulated error
`p1` / `p2` is nonnegative, in which case the error drops by `2*dd`;
both errors then grow by `2*da` / `2*db`.  `fuel` is the number of
remaining driving-axis steps (`|delta|` along the driving axis), so
the loop runs until the driving coordinate reaches its target. -/
def drive3 (sd sa sb dd da db : Int) : Nat → Int → Int → Int → Int → Int → List (Int × Int × Int)
  | 0, d, a, b, _, _ => [(d, a, b)]
  | u+1, d, a, b, p1, p2 =>
    (d, a, b) ::
      drive3 sd sa sb dd da db u (d + sd)
        (if 0 ≤ p1 then a + sa else a)
        (if 0 ≤ p2 then b + sb else b)
        ((if 0 ≤ p1 then p1 - 2*dd else p1) + 2*da)
        ((if 0 ≤ p2 then p2 - 2*dd else p2) + 2*db)

/-- Modelled from the spec: the cells marked by rasterizing the 3D
segment `(x0,y0,z0) → (x1,y1,z1)` per spec §4.1: the driving axis is
the one with the largest absolute delta, ties broken in axis order
`x` before `y` before `z` (spec §9); the passive error terms start at
`2*delta - drivingDelta` and the loop steps the driving axis once per
iteration. -/
def bres3 (x0 y0 z0 x1 y1 z1 : Int) : List (Int × Int × Int) :=
  if |y1 - y0| ≤ |x1 - x0| ∧ |z1 - z0| ≤ |x1 - x0| then
    drive3 (isign (x1 - x0)) (isign (y1 - y0)) (isign (z1 - z0))
      |x1 - x0| |y1 - y0| |z1 - z0| (|x1 - x0|).toNat x0 y0 z0
      (2*|y1 - y0| - |x1 - x0|) (2*|z1 - z0| - |x1 - x0|)
  else if |z1 - z0| ≤ |y1 - y0| then
    (drive3 (isign (y1 - y0)) (isign (x1 - x0)) (isign (z1 - z0))
      |y1 - y0| |x1 - x0| |z1 - z0| (|y1 - y0|).toNat y0 x0 z0
      (2*|x1 - x0| - |y1 - y0|) (2*|z1 - z0| - |y1 - y0|)).map
      (fun p => (p.2.1, p.1, p.2.2))
  else
    (drive3 (isign (z1 - z0)) (isign (x1 - x0)) (isign (y1 - y0))
      |z1 - z0| |x1 - x0| |y1 - y0| (|z1 - z0|).toNat z0 x0 y0
      (2*|x1 - x0| - |z1 - z0|) (2*|y1 - y0| - |z1 - z0|)).map
      (fun p => (p.2.1, p.2.2, p.1))

/-! ## Grids and the batch entry point -/

/-- Modelled from the spec: a caller-owned dense integer grid of rank
2 or 3 (spec §3).  The dense buffer is embedded as a total function
from integer coordinates to cell values. -/
inductive Grid where
  | two : ((Int × Int) → Int) → Grid
  | three : ((Int × Int × Int) → Int) → Grid

/-- Rank of a grid: 2 or 3. -/
def Grid.rank : Grid → Nat
  | .two _ => 2
  | .three _ => 3

/-- Modelled from the spec: the `InvalidArgument`-class error of the
DimensionMismatch policy (spec §7). -/
inductive DrawErr where
  | invalidArgument
deriving DecidableEq

/-- Cells marked by one 2D segment row `[x0, y0, x1, y1]`; a malformed
row marks nothing. -/
def pathOfSeg2 : List Int → List (Int × Int)
  | [x0, y0, x1, y1] => bres2 x0 y0 x1 y1
  | _ => []

/-- Cells marked by one 3D segment row `[x0, y0, z0, x1, y1, z1]`; a
malformed row marks nothing. -/
def pathOfSeg3 : List Int → List (Int × Int × Int)
  | [x0, y0, z0, x1, y1, z1] => bres3 x0 y0 z0 x1 y1 z1
  | _ => []

/-- Modelled from the spec: drawing one 2D segment into a grid sets
every cell on its Bresenham path to `1` (spec §4.1 "Effect"). -/
def draw2 (g : (Int × Int) → Int) (s : List Int) : (Int × Int) → Int :=
  fun p => if p ∈ pathOfSeg2 s then 1 else g p

/-- Modelled from the spec: drawing one 3D segment into a grid sets
every cell on its Bresenham path to `1` (spec §4.1 "Effect"). -/
def draw3 (g : (Int × Int × Int) → Int) (s : List Int) : (Int × Int × Int) → Int :=
  fun p => if p ∈ pathOfSeg3 s then 1 else g p

/-- Modelled from the spec: `drawlines_bresenham(segments, grid)`
(spec §4.1, §7).  Each segment is a row of `2 * rank` coordinates
`(start..., end...)`.  Per the DimensionMismatch policy of spec §7
the row lengths are validated eagerly, before any cell is written;
on success every segment's path is rasterized into the grid. -/
def drawlines_bresenham (segs : List (List Int)) (g : Grid) : Except DrawErr Grid :=
  if segs.all (fun s => s.length = 2 * g.rank) then
    match g with
    | .two g2 => .ok (.two (segs.foldl draw2 g2))
    | .three g3 => .ok (.three (segs.foldl draw3 g3))
  else
    .error .invalidArgument

/-- Value of a 2D result grid at a point (`0` for an error or a 3D
grid); used to observe `drawlines_bresenham` results concretely. -/
def gridAt2 (r : Except DrawErr Grid) (p : Int × Int) : Int :=
  match r with
  | .ok (.two g) => g p
  | _ => 0

/-! ## Adjacency (8- and 26-connectivity) -/

/-- Two distinct 2D cells differing by at most one unit in each
coordinate (8-connectivity). -/
def adj2 (p q : Int × Int) : Prop :=
  p ≠ q ∧ |q.1 - p.1| ≤ 1 ∧ |q.2 - p.2| ≤ 1

/-- Two distinct 3D cells differing by at most one unit in each
coordinate (26-connectivity). -/
def adj3 (p q : Int × Int × Int) : Prop :=
  p ≠ q ∧ |q.1 - p.1| ≤ 1 ∧ |q.2.1 - p.2.1| ≤ 1 ∧ |q.2.2 - p.2.2| ≤ 1

/-! ## The `_cosem.py` embedding -/

/-- A source descriptor of a dataset manifest (the `Source` TypedDict
of `_cosem.py`, string fields; the nested dict fields play no role in
the embedded methods). -/
structure Source where
  name : String
  description : String
  url : String
  format : String
  sampleType : String
  contentType : String
deriving DecidableEq

/-- A curated view of a dataset manifest (the `DatasetView` TypedDict
of `_cosem.py`; the float-valued fields play no role in the embedded
methods). -/
structure DatasetView where
  name : String
  description : String
  sources : List String
deriving DecidableEq

/-- Errors raised by the embedded `_cosem.py` methods. -/
inductive CosemError where
  | keyError
  | notImplementedError
deriving DecidableEq

/-- A call to the external array reader `io.read_xarray(url,
storage_options={"anon": True})`, recorded as data. -/
structure XarrayRead where
  url : String
  anon : Bool
deriving DecidableEq

/-- A `CosemDataset`, reduced to the manifest data its embedded
methods consult: the `sources` mapping (an association list, first
match wins, mirroring dict lookup over unique keys) and the ordered
`views` list. -/
structure CosemDataset where
  sources : List (String × Source)
  views : List DatasetView

/-- `CosemDataset.read_source` from `_cosem.py`: look the key up in
`self.sources` (a missing key is a `KeyError`), raise
`NotImplementedError` unless the source's format is `"n5"`, and
otherwise delegate to `io.read_xarray` on the URL
`f"{source['url']}/s{level}"` with anonymous storage options. -/
def CosemDataset.read_source (ds : CosemDataset) (key : String) (level : Nat) :
    Except CosemError XarrayRead :=
  match ds.sources.lookup key with
  | none => .error .keyError
  | some source =>
    if source.format ≠ "n5" then .error .notImplementedError
    else .ok ⟨source.url ++ "/s" ++ toString level, true⟩

/-- The for-loop body of `CosemDataset.view` from `_cosem.py`: return
the first view whose lowercased name starts with the lowercased query,
else fall through to a `KeyError`. -/
def viewLoop (views : List DatasetView) (name : String) : Except CosemError DatasetView :=
  match views with
  | [] => .error .keyError
  | d :: rest =>
    if d.name.toLower.startsWith name.toLower then .ok d
    else viewLoop rest name

/-- `CosemDataset.view` from `_cosem.py`: iterate over `self.views`
in order, returning the first prefix match, raising `KeyError` when
none matches. -/
def CosemDataset.view (ds : CosemDataset) (name : String) : Except CosemError DatasetView :=
  viewLoop ds.views name

/-! ## Helper lemmas -/

lemma bres2_self (x y : Int) : bres2 x y x y = [(x, y)] := by
  have h1 : (|x - x| + |y - y| + 1).toNat = 1 := by simp
  simp only [bres2, h1, sub_self, abs_zero, bres2Loop]
  simp

lemma bres3_self (x y z : Int) : bres3 x y z x y z = [(x, y, z)] := by
  have h0 : (|x - x|).toNat = 0 := by simp
  simp only [bres3, sub_self, abs_zero, le_refl, and_self, if_true, h0, drive3]

lemma foldl_draw2_frame (segs : List (List Int)) (g : (Int × Int) → Int) (p : Int × Int)
    (h : ∀ s ∈ segs, p ∉ pathOfSeg2 s) : segs.foldl draw2 g p = g p := by
  induction segs generalizing g with
  | nil => rfl
  | cons s t ih =>
    have hs : p ∉ pathOfSeg2 s := h s (List.mem_cons_self _ _)
    have ht : ∀ s' ∈ t, p ∉ pathOfSeg2 s' := fun s' hs' => h s' (List.mem_cons_of_mem _ hs')
    simp only [List.foldl_cons, ih (draw2 g s) ht, draw2, if_neg hs]

lemma foldl_draw3_frame (segs : List (List Int)) (g : (Int × Int × Int) → Int)
    (q : Int × Int × Int) (h : ∀ s ∈ segs, q ∉ pathOfSeg3 s) : segs.foldl draw3 g q = g q := by
  induction segs generalizing g with
  | nil => rfl
  | cons s t ih =>
    have hs : q ∉ pathOfSeg3 s := h s (List.mem_cons_self _ _)
    have ht : ∀ s' ∈ t, q ∉ pathOfSeg3 s' := fun s' hs' => h s' (List.mem_cons_of_mem _ hs')
    simp only [List.foldl_cons, ih (draw3 g s) ht, draw3, if_neg hs]

lemma viewLoop_eq_find (views : List DatasetView) (q : String) :
    viewLoop views q =
      match views.find? (fun d => d.name.toLower.startsWith q.toLower) with
      | some d => Except.ok d
      | none => Except.error CosemError.keyError := by
  induction views with
  | nil => rfl
  | cons d rest ih =>
    by_cases hd : d.name.toLower.startsWith q.toLower
    · simp [viewLoop, List.find?, hd]
    · rw [viewLoop, if_neg (by simp [hd]), ih]
      rw [List.find?]
      simp [hd]

/-! ## Claims -/

/-- C6: a degenerate segment (start equals end, 2D or 3D) raises no
error and sets exactly the one cell at that point to `1`, leaving all
other cells unchanged. -/
theorem c6_degenerate_segment (x y z : Int) (g2 : (Int × Int) → Int)
    (g3 : (Int × Int × Int) → Int) :
    drawlines_bresenham [[x, y, x, y]] (.two g2) =
      .ok (.two fun p => if p = (x, y) then 1 else g2 p) ∧
    drawlines_bresenham [[x, y, z, x, y, z]] (.three g3) =
      .ok (.three fun p => if p = (x, y, z) then 1 else g3 p) := by
  constructor
  · simp only [drawlines_bresenham, Grid.rank, List.all_cons, List.all_nil,
      List.length_cons, List.length_nil]
    norm_num
    funext p
    simp [draw2, pathOfSeg2, bres2_self]
  · simp only [drawlines_bresenham, Grid.rank, List.all_cons, List.all_nil,
      List.length_cons, List.length_nil]
    norm_num
    funext p
    simp [draw3, pathOfSeg3, bres3_self]

/-- C7: a batch containing a segment whose coordinate count is not
`2 * rank` fails with the `InvalidArgument`-class error; validation is
eager, before any write, so no grid is produced at all on such a
batch. -/
theorem c7_dimension_mismatch (segs : List (List Int)) (g : Grid)
    (h : ∃ s ∈ segs, s.length ≠ 2 * g.rank) :
    drawlines_bresenham segs g = .error .invalidArgument := by
  obtain ⟨s, hs, hlen⟩ := h
  have hall : ¬(segs.all (fun s => s.length = 2 * g.rank) = true) := by
    simp only [List.all_eq_true, decide_eq_true_eq]
    exact fun hforall => hlen (hforall s hs)
  simp only [drawlines_bresenham, if_neg hall]

/-- C7 witness: a 2D grid with a 3-coordinate segment row is rejected
with `invalidArgument`. -/
theorem c7_dimension_mismatch_witness :
    (∃ s ∈ [[(0:Int), 0, 0]], s.length ≠ 2 * (Grid.two fun _ => 0).rank) ∧
    drawlines_bresenham [[(0:Int), 0, 0]] (.two fun _ => 0) = .error .invalidArgument :=
  ⟨by decide, c7_dimension_mismatch [[(0:Int), 0, 0]] (.two fun _ => 0) (by decide)⟩

/-- C8: cells lying on no segment's discrete path keep their initial
value: `drawlines_bresenham` writes only cells on some segment's
path (2D and 3D). -/
theorem c8_frame_effect (segs2 segs3 : List (List Int)) (g2 : (Int × Int) → Int)
    (g3 : (Int × Int × Int) → Int) (p : Int × Int) (q : Int × Int × Int)
    (h2len : ∀ s ∈ segs2, s.length = 4) (h2mem : ∀ s ∈ segs2, p ∉ pathOfSeg2 s)
    (h3len : ∀ s ∈ segs3, s.length = 6) (h3mem : ∀ s ∈ segs3, q ∉ pathOfSeg3 s) :
    (∃ g', drawlines_bresenham segs2 (.two g2) = .ok (.two g') ∧ g' p = g2 p) ∧
    (∃ g', drawlines_bresenham segs3 (.three g3) = .ok (.three g') ∧ g' q = g3 q) := by
  constructor
  · refine ⟨segs2.foldl draw2 g2, ?_, foldl_draw2_frame segs2 g2 p h2mem⟩
    have hall : segs2.all (fun s => s.length = 2 * (Grid.two g2).rank) = true := by
      simp only [List.all_eq_true, decide_eq_true_eq, Grid.rank]
      exact fun s hs => by rw [h2len s hs]
    simp only [drawlines_bresenham, if_pos hall]
  · refine ⟨segs3.foldl draw3 g3, ?_, foldl_draw3_frame segs3 g3 q h3mem⟩
    have hall : segs3.all (fun s => s.length = 2 * (Grid.three g3).rank) = true := by
      simp only [List.all_eq_true, decide_eq_true_eq, Grid.rank]
      exact fun s hs => by rw [h3len s hs]
    simp only [drawlines_bresenham, if_pos hall]

/-- C8 witness: the far-away cells `(5,5)` and `(5,5,5)` are untouched
by rasterizing the unit diagonals. -/
theorem c8_frame_effect_witness :
    ((∀ s ∈ [[(0:Int), 0, 1, 1]], s.length = 4) ∧
     (∀ s ∈ [[(0:Int), 0, 1, 1]], ((5:Int), (5:Int)) ∉ pathOfSeg2 s) ∧
     (∀ s ∈ [[(0:Int), 0, 0, 1, 1, 1]], s.length = 6) ∧
     (∀ s ∈ [[(0:Int), 0, 0, 1, 1, 1]], ((5:Int), (5:Int), (5:Int)) ∉ pathOfSeg3 s)) ∧
    ((∃ g', drawlines_bresenham [[(0:Int), 0, 1, 1]] (.two fun _ => 3) = .ok (.two g') ∧
        g' (5, 5) = (fun _ => (3:Int)) (5, 5)) ∧
     (∃ g', drawlines_bresenham [[(0:Int), 0, 0, 1, 1, 1]] (.three fun _ => 7) = .ok (.three g') ∧
        g' (5, 5, 5) = (fun _ => (7:Int)) (5, 5, 5))) :=
  ⟨⟨by decide, by decide, by decide, by decide⟩,
   c8_frame_effect [[(0:Int), 0, 1, 1]] [[(0:Int), 0, 0, 1, 1, 1]] (fun _ => 3) (fun _ => 7)
     (5, 5) (5, 5, 5) (by decide) (by decide) (by decide) (by decide)⟩

/-- C10: `CosemDataset.view` returns the first view, in manifest
order, whose lowercased name starts with the lowercased query (a
case-insensitive prefix match), and raises `KeyError` exactly when no
view's name matches. -/
theorem c10_view_first_prefix_match (ds : CosemDataset) (q : String) :
    (ds.view q =
      match ds.views.find? (fun d => d.name.toLower.startsWith q.toLower) with
      | some d => Except.ok d
      | none => Except.error CosemError.keyError) ∧
    (ds.view q = Except.error CosemError.keyError ↔
      ∀ d ∈ ds.views, ¬(d.name.toLower.startsWith q.toLower = true)) := by
  refine ⟨viewLoop_eq_find ds.views q, ?_⟩
  rw [CosemDataset.view, viewLoop_eq_find ds.views q]
  rcases hf : ds.views.find? (fun d => d.name.toLower.startsWith q.toLower) with _ | d
  · rw [hf]
    simp only [List.find?_eq_none] at hf
    constructor
    · intro _ d hd
      simpa using hf d hd
    · intro _
      rfl
  · rw [hf]
    have hmem := List.mem_of_find?_eq_some hf
    have hd := List.find?_some hf
    constructor
    · intro h
      simp at h
    · intro h
      exact absurd hd (by simpa using h d hmem)

/-- C9: for a key present in the sources mapping, `read_source` raises
`NotImplementedError` iff the source's format is not `"n5"`; for an
`"n5"` source it delegates to the array reader at the URL
`url ++ "/s" ++ level`. -/
theorem c9_read_source_n5_dispatch (ds : CosemDataset) (key : String) (lvl : Nat)
    (src : Source) (h : ds.sources.lookup key = some src) :
    (ds.read_source key lvl = Except.error CosemError.notImplementedError ↔
      src.format ≠ "n5") ∧
    (src.format = "n5" →
      ds.read_source key lvl = Except.ok ⟨src.url ++ "/s" ++ toString lvl, true⟩) := by
  by_cases hf : src.format = "n5"
  · simp [CosemDataset.read_source, h, hf]
  · simp [CosemDataset.read_source, h, hf]

/-- C9 witness: a one-source dataset with an `"n5"` source reads at
`url/s0`, and the same lookup on a non-`"n5"` format would be the
`NotImplementedError` case of the iff. -/
theorem c9_read_source_n5_dispatch_witness :
    ((CosemDataset.mk [("er_seg", ⟨"er_seg", "", "s3://b/er_seg", "n5", "label", "segmentation"⟩)]
        []).sources.lookup "er_seg" =
      some ⟨"er_seg", "", "s3://b/er_seg", "n5", "label", "segmentation"⟩) ∧
    (((CosemDataset.mk [("er_seg", ⟨"er_seg", "", "s3://b/er_seg", "n5", "label", "segmentation"⟩)]
        []).read_source "er_seg" 0 = Except.error CosemError.notImplementedError ↔
      (⟨"er_seg", "", "s3://b/er_seg", "n5", "label", "segmentation"⟩ : Source).format ≠ "n5") ∧
     ((⟨"er_seg", "", "s3://b/er_seg", "n5", "label", "segmentation"⟩ : Source).format = "n5" →
      (CosemDataset.mk [("er_seg", ⟨"er_seg", "", "s3://b/er_seg", "n5", "label", "segmentation"⟩)]
        []).read_source "er_seg" 0 =
        Except.ok ⟨"s3://b/er_seg" ++ "/s" ++ toString 0, true⟩)) :=
  ⟨rfl, c9_read_source_n5_dispatch _ "er_seg" 0 _ rfl⟩

/-- C4: rasterizing a two-segment batch equals the cell-wise logical
OR of rasterizing each segment alone into a zero grid, and swapping
the batch order does not change the result (2D and 3D). -/
theorem c4_batch_independence (s1 s2 t1 t2 : List Int)
    (h1 : s1.length = 4) (h2 : s2.length = 4)
    (h3 : t1.length = 6) (h4 : t2.length = 6) :
    (drawlines_bresenham [s1] (.two fun _ => 0) = .ok (.two (draw2 (fun _ => 0) s1)) ∧
     drawlines_bresenham [s2] (.two fun _ => 0) = .ok (.two (draw2 (fun _ => 0) s2)) ∧
     drawlines_bresenham [s1, s2] (.two fun _ => 0) =
       .ok (.two fun p =>
         if draw2 (fun _ => 0) s1 p ≠ 0 ∨ draw2 (fun _ => 0) s2 p ≠ 0 then 1 else 0) ∧
     drawlines_bresenham [s1, s2] (.two fun _ => 0) =
       drawlines_bresenham [s2, s1] (.two fun _ => 0)) ∧
    (drawlines_bresenham [t1] (.three fun _ => 0) = .ok (.three (draw3 (fun _ => 0) t1)) ∧
     drawlines_bresenham [t2] (.three fun _ => 0) = .ok (.three (draw3 (fun _ => 0) t2)) ∧
     drawlines_bresenham [t1, t2] (.three fun _ => 0) =
       .ok (.three fun p =>
         if draw3 (fun _ => 0) t1 p ≠ 0 ∨ draw3 (fun _ => 0) t2 p ≠ 0 then 1 else 0) ∧
     drawlines_bresenham [t1, t2] (.three fun _ => 0) =
       drawlines_bresenham [t2, t1] (.three fun _ => 0)) := by
  constructor
  · refine ⟨?_, ?_, ?_, ?_⟩
    · simp [drawlines_bresenham, Grid.rank, h1]
    · simp [drawlines_bresenham, Grid.rank, h2]
    · simp only [drawlines_bresenham, Grid.rank, List.all_cons, List.all_nil, h1, h2]
      norm_num
      funext p
      by_cases m1 : p ∈ pathOfSeg2 s1 <;> by_cases m2 : p ∈ pathOfSeg2 s2 <;>
        simp [draw2, m1, m2]
    · simp only [drawlines_bresenham, Grid.rank, List.all_cons, List.all_nil, h1, h2]
      norm_num
      funext p
      by_cases m1 : p ∈ pathOfSeg2 s1 <;> by_cases m2 : p ∈ pathOfSeg2 s2 <;>
        simp [draw2, m1, m2]
  · refine ⟨?_, ?_, ?_, ?_⟩
    · simp [drawlines_bresenham, Grid.rank, h3]
    · simp [drawlines_bresenham, Grid.rank, h4]
    · simp only [drawlines_bresenham, Grid.rank, List.all_cons, List.all_nil, h3, h4]
      norm_num
      funext p
      by_cases m1 : p ∈ pathOfSeg3 t1 <;> by_cases m2 : p ∈ pathOfSeg3 t2 <;>
        simp [draw3, m1, m2]
    · simp only [drawlines_bresenham, Grid.rank, List.all_cons, List.all_nil, h3, h4]
      norm_num
      funext p
      by_cases m1 : p ∈ pathOfSeg3 t1 <;> by_cases m2 : p ∈ pathOfSeg3 t2 <;>
        simp [draw3, m1, m2]

/-- C4 witness: the batch of the two unit segments applied at concrete
inputs. -/
theorem c4_batch_independence_witness :
    (([(0:Int), 0, 1, 1] : List Int).length = 4 ∧ ([(2:Int), 0, 2, 1] : List Int).length = 4 ∧
     ([(0:Int), 0, 0, 1, 1, 1] : List Int).length = 6 ∧
     ([(2:Int), 0, 0, 2, 1, 0] : List Int).length = 6) ∧
    ((drawlines_bresenham [[(0:Int), 0, 1, 1]] (.two fun _ => 0) =
        .ok (.two (draw2 (fun _ => 0) [(0:Int), 0, 1, 1])) ∧
      drawlines_bresenham [[(2:Int), 0, 2, 1]] (.two fun _ => 0) =
        .ok (.two (draw2 (fun _ => 0) [(2:Int), 0, 2, 1])) ∧
      drawlines_bresenham [[(0:Int), 0, 1, 1], [(2:Int), 0, 2, 1]] (.two fun _ => 0) =
        .ok (.two fun p =>
          if draw2 (fun _ => 0) [(0:Int), 0, 1, 1] p ≠ 0 ∨
             draw2 (fun _ => 0) [(2:Int), 0, 2, 1] p ≠ 0 then 1 else 0) ∧
      drawlines_bresenham [[(0:Int), 0, 1, 1], [(2:Int), 0, 2, 1]] (.two fun _ => 0) =
        drawlines_bresenham [[(2:Int), 0, 2, 1], [(0:Int), 0, 1, 1]] (.two fun _ => 0)) ∧
     (drawlines_bresenham [[(0:Int), 0, 0, 1, 1, 1]] (.three fun _ => 0) =
        .ok (.three (draw3 (fun _ => 0) [(0:Int), 0, 0, 1, 1, 1])) ∧
      drawlines_bresenham [[(2:Int), 0, 0, 2, 1, 0]] (.three fun _ => 0) =
        .ok (.three (draw3 (fun _ => 0) [(2:Int), 0, 0, 2, 1, 0])) ∧
      drawlines_bresenham [[(0:Int), 0, 0, 1, 1, 1], [(2:Int), 0, 0, 2, 1, 0]]
          (.three fun _ => 0) =
        .ok (.three fun p =>
          if draw3 (fun _ => 0) [(0:Int), 0, 0, 1, 1, 1] p ≠ 0 ∨
             draw3 (fun _ => 0) [(2:Int), 0, 0, 2, 1, 0] p ≠ 0 then 1 else 0) ∧
      drawlines_bresenham [[(0:Int), 0, 0, 1, 1, 1], [(2:Int), 0, 0, 2, 1, 0]]
          (.three fun _ => 0) =
        drawlines_bresenham [[(2:Int), 0, 0, 2, 1, 0], [(0:Int), 0, 0, 1, 1, 1]]
          (.three fun _ => 0))) :=
  ⟨⟨rfl, rfl, rfl, rfl⟩,
   c4_batch_independence [(0:Int), 0, 1, 1] [(2:Int), 0, 2, 1]
     [(0:Int), 0, 0, 1, 1, 1] [(2:Int), 0, 0, 2, 1, 0] rfl rfl rfl rfl⟩

/-! ## Diagonal paths -/

lemma bres2Loop_diag (d : Int) :
    ∀ (m : Nat) (fuel : Nat), (m : Int) ≤ d → 2 * m < fuel →
      bres2Loop d d 1 1 d d fuel (d - (m : Int)) (d - (m : Int)) 0 =
        (List.range (m + 1)).map
          (fun j : Nat => (d - (m : Int) + (j : Int), d - (m : Int) + (j : Int))) := by
  intro m
  induction m with
  | zero =>
    intro fuel _ hfuel
    cases fuel with
    | zero => omega
    | succ f =>
      rw [bres2Loop, if_pos (by norm_num)]
      simp [List.range_succ]
  | succ m ih =>
    intro fuel hm hfuel
    cases fuel with
    | zero => omega
    | succ f =>
      push_cast at hm ⊢
      have hd1 : (1 : Int) ≤ d := by omega
      have hc1 : (2 : Int) * 0 > -d := by omega
      have hc2 : (2 : Int) * 0 < d := by omega
      rw [bres2Loop, if_neg (by omega : ¬(d - ((m : Int) + 1) = d ∧ d - ((m : Int) + 1) = d))]
      simp only [if_pos hc1, if_pos hc2]
      rw [show d - ((m : Int) + 1) + 1 = d - (m : Int) from by ring,
        show (0 : Int) - d + d = 0 from by ring,
        List.range_succ_eq_map (m + 1), List.map_cons, List.map_map,
        ih f (by omega) (by omega)]
      congr 1
      · norm_num
      · apply List.map_congr_left
        intro j _
        simp only [Function.comp_apply, Prod.mk.injEq]
        push_cast
        exact ⟨by ring, by ring⟩

lemma bres2_diag (n : Int) (hn : 1 ≤ n) :
    bres2 0 0 (n - 1) (n - 1) =
      (List.range n.toNat).map (fun j : Nat => ((j : Int), (j : Int))) := by
  rcases eq_or_lt_of_le hn with h1 | h2
  · rw [← h1]
    decide
  · have hd0 : (0 : Int) ≤ n - 1 := by omega
    have habs : |n - 1 - 0| = n - 1 := by
      rw [show n - 1 - 0 = n - 1 from by ring, abs_of_nonneg hd0]
    have hsign : isign (n - 1 - 0) = 1 := by
      rw [isign, if_pos (by omega)]
    have key := bres2Loop_diag (n - 1) (n - 1).toNat ((n - 1) + (n - 1) + 1).toNat
      (by omega) (by omega)
    simp only [Int.toNat_of_nonneg hd0, sub_self, zero_add] at key
    rw [bres2, habs, hsign, sub_self, key,
      show (n - 1).toNat + 1 = n.toNat from by omega]

/-- C1: rasterizing the single 2D segment `(0,0) → (n-1,n-1)` into a
zero grid yields `1` exactly on the diagonal cells `(i,i)` with
`0 ≤ i < n` and `0` everywhere else. -/
theorem c1_diagonal_2d (n : Int) (hn : 1 ≤ n) :
    drawlines_bresenham [[0, 0, n - 1, n - 1]] (.two fun _ => 0) =
      .ok (.two fun p => if p.1 = p.2 ∧ 0 ≤ p.1 ∧ p.1 < n then 1 else 0) := by
  simp only [drawlines_bresenham, Grid.rank, List.all_cons, List.all_nil,
    List.length_cons, List.length_nil]
  norm_num
  funext p
  have hmem : p ∈ pathOfSeg2 [0, 0, n - 1, n - 1] ↔ (p.1 = p.2 ∧ 0 ≤ p.1 ∧ p.1 < n) := by
    rw [pathOfSeg2, bres2_diag n hn]
    simp only [List.mem_map, List.mem_range]
    constructor
    · rintro ⟨j, hj, rfl⟩
      exact ⟨rfl, by omega, by omega⟩
    · intro hp
      obtain ⟨a, b⟩ := p
      obtain ⟨h12, h0, hlt⟩ := hp
      simp only at h12 h0 hlt
      subst h12
      refine ⟨a.toNat, by omega, ?_⟩
      simp only [Prod.mk.injEq]
      exact ⟨by omega, by omega⟩
  rw [draw2, if_congr hmem rfl rfl]

/-- C1 witness: the diagonal property at `n = 3`. -/
theorem c1_diagonal_2d_witness :
    (1 : Int) ≤ 3 ∧
    drawlines_bresenham [[0, 0, (3 : Int) - 1, 3 - 1]] (.two fun _ => 0) =
      .ok (.two fun p => if p.1 = p.2 ∧ 0 ≤ p.1 ∧ p.1 < 3 then 1 else 0) :=
  ⟨by decide, c1_diagonal_2d 3 (by decide)⟩

lemma drive3_diag (d : Int) (hd : 0 ≤ d) :
    ∀ (k : Nat) (i : Int),
      drive3 1 1 1 d d d k i i i d d =
        (List.range (k + 1)).map
          (fun j : Nat => (i + (j : Int), i + (j : Int), i + (j : Int))) := by
  intro k
  induction k with
  | zero =>
    intro i
    rw [drive3]
    simp [List.range_succ]
  | succ k ih =>
    intro i
    rw [drive3]
    simp only [if_pos hd]
    rw [show d - 2*d + 2*d = d from by ring,
      List.range_succ_eq_map (k + 1), List.map_cons, List.map_map, ih (i + 1)]
    congr 1
    · norm_num
    · apply List.map_congr_left
      intro j _
      simp only [Function.comp_apply, Prod.mk.injEq]
      push_cast
      exact ⟨by ring, by ring, by ring⟩

lemma bres3_diag (n : Int) (hn : 1 ≤ n) :
    bres3 0 0 0 (n - 1) (n - 1) (n - 1) =
      (List.range n.toNat).map (fun j : Nat => ((j : Int), (j : Int), (j : Int))) := by
  rcases eq_or_lt_of_le hn with h1 | h2
  · rw [← h1]
    decide
  · have hd0 : (0 : Int) ≤ n - 1 := by omega
    have habs : |n - 1 - 0| = n - 1 := by
      rw [show n - 1 - 0 = n - 1 from by ring, abs_of_nonneg hd0]
    have hsign : isign (n - 1 - 0) = 1 := by
      rw [isign, if_pos (by omega)]
    have key := drive3_diag (n - 1) hd0 (n - 1).toNat 0
    rw [bres3, habs, hsign, if_pos ⟨le_refl _, le_refl _⟩,
      show 2*(n-1) - (n-1) = n - 1 from by ring, key,
      show (n - 1).toNat + 1 = n.toNat from by omega]
    apply List.map_congr_left
    intro j _
    norm_num

/-- C2: rasterizing the single 3D segment `(0,0,0) → (n-1,n-1,n-1)`
into a zero grid yields `1` exactly on the diagonal cells `(i,i,i)`
with `0 ≤ i < n` and `0` everywhere else. -/
theorem c2_diagonal_3d (n : Int) (hn : 1 ≤ n) :
    drawlines_bresenham [[0, 0, 0, n - 1, n - 1, n - 1]] (.three fun _ => 0) =
      .ok (.three fun p =>
        if p.1 = p.2.1 ∧ p.1 = p.2.2 ∧ 0 ≤ p.1 ∧ p.1 < n then 1 else 0) := by
  simp only [drawlines_bresenham, Grid.rank, List.all_cons, List.all_nil,
    List.length_cons, List.length_nil]
  norm_num
  funext p
  have hmem : p ∈ pathOfSeg3 [0, 0, 0, n - 1, n - 1, n - 1] ↔
      (p.1 = p.2.1 ∧ p.1 = p.2.2 ∧ 0 ≤ p.1 ∧ p.1 < n) := by
    rw [pathOfSeg3, bres3_diag n hn]
    simp only [List.mem_map, List.mem_range]
    constructor
    · rintro ⟨j, hj, rfl⟩
      exact ⟨rfl, rfl, by omega, by omega⟩
    · intro hp
      obtain ⟨a, b, c⟩ := p
      obtain ⟨h12, h13, h0, hlt⟩ := hp
      simp only at h12 h13 h0 hlt
      subst h12
      subst h13
      refine ⟨a.toNat, by omega, ?_⟩
      simp only [Prod.mk.injEq]
      exact ⟨by omega, by omega, by omega⟩
  rw [draw3, if_congr hmem rfl rfl]

/-- C2 witness: the diagonal property at `n = 3`. -/
theorem c2_diagonal_3d_witness :
    (1 : Int) ≤ 3 ∧
    drawlines_bresenham [[0, 0, 0, (3 : Int) - 1, 3 - 1, 3 - 1]] (.three fun _ => 0) =
      .ok (.three fun p =>
        if p.1 = p.2.1 ∧ p.1 = p.2.2 ∧ 0 ≤ p.1 ∧ p.1 < 3 then 1 else 0) :=
  ⟨by decide, c2_diagonal_3d 3 (by decide)⟩

/-! ## Reversal: the backward path is the point reflection of the forward path -/

lemma isign_neg (a : Int) : isign (-a) = -isign a := by
  unfold isign
  split_ifs <;> omega

lemma bres2Loop_mirror (x1 y1 sx sy dx dy X Y : Int) :
    ∀ (fuel : Nat) (x y err : Int),
      bres2Loop (X - x1) (Y - y1) (-sx) (-sy) dx dy fuel (X - x) (Y - y) err =
        (bres2Loop x1 y1 sx sy dx dy fuel x y err).map (fun p => (X - p.1, Y - p.2)) := by
  intro fuel
  induction fuel with
  | zero =>
    intro x y err
    rfl
  | succ f ih =>
    intro x y err
    rw [bres2Loop, bres2Loop]
    by_cases ht : x = x1 ∧ y = y1
    · obtain ⟨h1, h2⟩ := ht
      rw [if_pos ⟨show X - x = X - x1 from by omega, show Y - y = Y - y1 from by omega⟩,
        if_pos ⟨h1, h2⟩]
      rfl
    · have hne : ¬(X - x = X - x1 ∧ Y - y = Y - y1) := by
        intro hc
        obtain ⟨hc1, hc2⟩ := hc
        exact ht ⟨by omega, by omega⟩
      rw [if_neg ht, if_neg hne, List.map_cons]
      congr 1
      have e1 : (if 2*err > -dy then X - x + -sx else X - x) =
          X - (if 2*err > -dy then x + sx else x) := by
        split <;> ring
      have e2 : (if 2*err < dx then Y - y + -sy else Y - y) =
          Y - (if 2*err < dx then y + sy else y) := by
        split <;> ring
      rw [e1, e2, ih]

lemma drive3_mirror (sd sa sb dd da db D A B : Int) :
    ∀ (u : Nat) (d a b p1 p2 : Int),
      drive3 (-sd) (-sa) (-sb) dd da db u (D - d) (A - a) (B - b) p1 p2 =
        (drive3 sd sa sb dd da db u d a b p1 p2).map
          (fun p => (D - p.1, A - p.2.1, B - p.2.2)) := by
  intro u
  induction u with
  | zero =>
    intro d a b p1 p2
    rfl
  | succ f ih =>
    intro d a b p1 p2
    rw [drive3, drive3, List.map_cons]
    congr 1
    have e0 : D - d + -sd = D - (d + sd) := by ring
    have e1 : (if 0 ≤ p1 then A - a + -sa else A - a) =
        A - (if 0 ≤ p1 then a + sa else a) := by
      split <;> ring
    have e2 : (if 0 ≤ p2 then B - b + -sb else B - b) =
        B - (if 0 ≤ p2 then b + sb else b) := by
      split <;> ring
    rw [e0, e1, e2, ih]

lemma bres2_rev (x0 y0 x1 y1 : Int) :
    bres2 x1 y1 x0 y0 =
      (bres2 x0 y0 x1 y1).map (fun p => (x0 + x1 - p.1, y0 + y1 - p.2)) := by
  have hdx : |x0 - x1| = |x1 - x0| := abs_sub_comm x0 x1
  have hdy : |y0 - y1| = |y1 - y0| := abs_sub_comm y0 y1
  have hsx : isign (x0 - x1) = -isign (x1 - x0) := by
    rw [show x0 - x1 = -(x1 - x0) from by ring, isign_neg]
  have hsy : isign (y0 - y1) = -isign (y1 - y0) := by
    rw [show y0 - y1 = -(y1 - y0) from by ring, isign_neg]
  have key := bres2Loop_mirror x1 y1 (isign (x1 - x0)) (isign (y1 - y0)) |x1 - x0| |y1 - y0|
    (x0 + x1) (y0 + y1) ((|x1 - x0| + |y1 - y0| + 1).toNat) x0 y0 (|x1 - x0| - |y1 - y0|)
  rw [show x0 + x1 - x1 = x0 from by ring, show y0 + y1 - y1 = y0 from by ring,
    show x0 + x1 - x0 = x1 from by ring, show y0 + y1 - y0 = y1 from by ring] at key
  rw [bres2, bres2, hdx, hdy, hsx, hsy, key]

lemma bres3_rev (x0 y0 z0 x1 y1 z1 : Int) :
    bres3 x1 y1 z1 x0 y0 z0 =
      (bres3 x0 y0 z0 x1 y1 z1).map
        (fun p => (x0 + x1 - p.1, y0 + y1 - p.2.1, z0 + z1 - p.2.2)) := by
  have hdx : |x0 - x1| = |x1 - x0| := abs_sub_comm x0 x1
  have hdy : |y0 - y1| = |y1 - y0| := abs_sub_comm y0 y1
  have hdz : |z0 - z1| = |z1 - z0| := abs_sub_comm z0 z1
  have hsx : isign (x0 - x1) = -isign (x1 - x0) := by
    rw [show x0 - x1 = -(x1 - x0) from by ring, isign_neg]
  have hsy : isign (y0 - y1) = -isign (y1 - y0) := by
    rw [show y0 - y1 = -(y1 - y0) from by ring, isign_neg]
  have hsz : isign (z0 - z1) = -isign (z1 - z0) := by
    rw [show z0 - z1 = -(z1 - z0) from by ring, isign_neg]
  rw [bres3, bres3, hdx, hdy, hdz, hsx, hsy, hsz]
  by_cases hX : |y1 - y0| ≤ |x1 - x0| ∧ |z1 - z0| ≤ |x1 - x0|
  · rw [if_pos hX, if_pos hX]
    have key := drive3_mirror (isign (x1 - x0)) (isign (y1 - y0)) (isign (z1 - z0))
      |x1 - x0| |y1 - y0| |z1 - z0| (x0 + x1) (y0 + y1) (z0 + z1)
      ((|x1 - x0|).toNat) x0 y0 z0 (2*|y1 - y0| - |x1 - x0|) (2*|z1 - z0| - |x1 - x0|)
    rw [show x0 + x1 - x0 = x1 from by ring, show y0 + y1 - y0 = y1 from by ring,
      show z0 + z1 - z0 = z1 from by ring] at key
    exact key
  · rw [if_neg hX, if_neg hX]
    by_cases hY : |z1 - z0| ≤ |y1 - y0|
    · rw [if_pos hY, if_pos hY]
      have key := drive3_mirror (isign (y1 - y0)) (isign (x1 - x0)) (isign (z1 - z0))
        |y1 - y0| |x1 - x0| |z1 - z0| (y0 + y1) (x0 + x1) (z0 + z1)
        ((|y1 - y0|).toNat) y0 x0 z0 (2*|x1 - x0| - |y1 - y0|) (2*|z1 - z0| - |y1 - y0|)
      rw [show x0 + x1 - x0 = x1 from by ring, show y0 + y1 - y0 = y1 from by ring,
        show z0 + z1 - z0 = z1 from by ring] at key
      rw [key, List.map_map, List.map_map]
      apply List.map_congr_left
      intro p _
      rfl
    · rw [if_neg hY, if_neg hY]
      have key := drive3_mirror (isign (z1 - z0)) (isign (x1 - x0)) (isign (y1 - y0))
        |z1 - z0| |x1 - x0| |y1 - y0| (z0 + z1) (x0 + x1) (y0 + y1)
        ((|z1 - z0|).toNat) z0 x0 y0 (2*|x1 - x0| - |z1 - z0|) (2*|y1 - y0| - |z1 - z0|)
      rw [show x0 + x1 - x0 = x1 from by ring, show y0 + y1 - y0 = y1 from by ring,
        show z0 + z1 - z0 = z1 from by ring] at key
      rw [key, List.map_map, List.map_map]
      apply List.map_congr_left
      intro p _
      rfl

/-- C5 counterexample: rasterizing `(0,0) → (2,1)` marks cell `(1,0)`,
while rasterizing the reversed segment `(2,1) → (0,0)` leaves `(1,0)`
at `0` (it marks `(1,1)` instead): the marked-cell sets differ. -/
theorem c5_symmetry_counterexample :
    gridAt2 (drawlines_bresenham [[0, 0, 2, 1]] (.two fun _ => 0)) (1, 0) = 1 ∧
    gridAt2 (drawlines_bresenham [[2, 1, 0, 0]] (.two fun _ => 0)) (1, 0) = 0 := by
  decide

/-- C5 (amended): rasterizing the reversed segment `b → a` marks the
point reflection through `a + b` of the cells marked for `a → b` — in
particular the same number of cells, with the same endpoints — but not
in general the same set of cells. -/
theorem c5_reversal_reflection (x0 y0 z0 x1 y1 z1 : Int) :
    (bres2 x1 y1 x0 y0 =
      (bres2 x0 y0 x1 y1).map (fun p => (x0 + x1 - p.1, y0 + y1 - p.2)) ∧
     (bres2 x1 y1 x0 y0).length = (bres2 x0 y0 x1 y1).length) ∧
    (bres3 x1 y1 z1 x0 y0 z0 =
      (bres3 x0 y0 z0 x1 y1 z1).map
        (fun p => (x0 + x1 - p.1, y0 + y1 - p.2.1, z0 + z1 - p.2.2)) ∧
     (bres3 x1 y1 z1 x0 y0 z0).length = (bres3 x0 y0 z0 x1 y1 z1).length) :=
  ⟨⟨bres2_rev x0 y0 x1 y1, by rw [bres2_rev x0 y0 x1 y1, List.length_map]⟩,
   ⟨bres3_rev x0 y0 z0 x1 y1 z1, by rw [bres3_rev x0 y0 z0 x1 y1 z1, List.length_map]⟩⟩

/-! ## General path correctness -/

lemma isign_mul_abs (a : Int) : isign a * |a| = a := by
  unfold isign
  split_ifs with h1 h2
  · rw [one_mul, abs_of_pos h1]
  · rw [neg_one_mul, abs_of_neg h2, neg_neg]
  · rw [zero_mul]
    omega

lemma bres2Loop_spec (x1 y1 sx sy dx dy : Int)
    (hdx : 0 ≤ dx) (hdy : 0 ≤ dy)
    (hsx1 : 0 < dx → sx = 1 ∨ sx = -1)
    (hsy1 : 0 < dy → sy = 1 ∨ sy = -1) :
    ∀ (fuel : Nat) (u v x y err : Int),
      0 ≤ u → u ≤ dx → 0 ≤ v → v ≤ dy →
      x1 - x = sx * u → y1 - y = sy * v →
      err = dx - dy + u * dy - v * dx →
      u + v < (fuel : Int) →
      ∃ L, bres2Loop x1 y1 sx sy dx dy fuel x y err = (x, y) :: L ∧
        ((x, y) :: L).getLast? = some (x1, y1) ∧
        List.Chain' adj2 ((x, y) :: L) := by
  intro fuel
  induction fuel with
  | zero =>
    intro u v x y err hu0 hud hv0 hvd hx hy herr hfuel
    exfalso
    push_cast at hfuel
    omega
  | succ f ih =>
    intro u v x y err hu0 hud hv0 hvd hx hy herr hfuel
    by_cases hterm : x = x1 ∧ y = y1
    · refine ⟨[], by rw [bres2Loop, if_pos hterm], ?_, List.chain'_singleton _⟩
      simp [hterm.1, hterm.2]
    · have hu_x : u = 0 → x = x1 := by
        intro h
        rw [h, mul_zero] at hx
        omega
      have hv_y : v = 0 → y = y1 := by
        intro h
        rw [h, mul_zero] at hy
        omega
      have huv : ¬(u = 0 ∧ v = 0) := fun hc => hterm ⟨hu_x hc.1, hv_y hc.2⟩
      have hudy : 0 ≤ u * dy := mul_nonneg hu0 hdy
      have hvdx : 0 ≤ v * dx := mul_nonneg hv0 hdx
      push_cast at hfuel
      by_cases hc1 : 2*err > -dy <;> by_cases hc2 : 2*err < dx
      · -- both axes step
        have hu1 : 1 ≤ u := by
          by_contra hcon
          have hu00 : u = 0 := by omega
          have hv1 : 1 ≤ v := by
            rcases eq_or_lt_of_le hv0 with h | h
            · exact absurd ⟨hu00, h.symm⟩ huv
            · omega
          have hudy0 : u * dy = 0 := by rw [hu00, zero_mul]
          have hdxv : dx ≤ v * dx := le_mul_of_one_le_left hdx hv1
          linarith
        have hv1 : 1 ≤ v := by
          by_contra hcon
          have hv00 : v = 0 := by omega
          have hu1' : 1 ≤ u := by
            rcases eq_or_lt_of_le hu0 with h | h
            · exact absurd ⟨h.symm, hv00⟩ huv
            · omega
          have hvdx0 : v * dx = 0 := by rw [hv00, zero_mul]
          have hdyu : dy ≤ u * dy := le_mul_of_one_le_left hdy hu1'
          linarith
        have hsx' : sx = 1 ∨ sx = -1 := hsx1 (by omega)
        have hsy' : sy = 1 ∨ sy = -1 := hsy1 (by omega)
        obtain ⟨L', hL', hlast', hchain'⟩ := ih (u - 1) (v - 1) (x + sx) (y + sy)
          (err - dy + dx) (by omega) (by omega) (by omega) (by omega)
          (by rw [mul_sub, mul_one]; linarith)
          (by rw [mul_sub, mul_one]; linarith)
          (by rw [herr]; ring) (by omega)
        refine ⟨(x + sx, y + sy) :: L', ?_, ?_, ?_⟩
        · rw [bres2Loop, if_neg hterm]
          simp only [if_pos hc1, if_pos hc2]
          rw [hL']
        · rw [List.getLast?_cons_cons]
          exact hlast'
        · rw [List.chain'_cons]
          refine ⟨⟨?_, ?_, ?_⟩, hchain'⟩
          · simp only [ne_eq, Prod.mk.injEq, not_and]
            intro hcx
            exfalso
            rcases hsx' with h | h <;> omega
          · rw [show x + sx - x = sx from by ring]
            exact abs_le.mpr ⟨by rcases hsx' with h | h <;> omega,
              by rcases hsx' with h | h <;> omega⟩
          · rw [show y + sy - y = sy from by ring]
            exact abs_le.mpr ⟨by rcases hsy' with h | h <;> omega,
              by rcases hsy' with h | h <;> omega⟩
      · -- only x steps
        have hu1 : 1 ≤ u := by
          by_contra hcon
          have hu00 : u = 0 := by omega
          have hv1 : 1 ≤ v := by
            rcases eq_or_lt_of_le hv0 with h | h
            · exact absurd ⟨hu00, h.symm⟩ huv
            · omega
          have hudy0 : u * dy = 0 := by rw [hu00, zero_mul]
          have hdxv : dx ≤ v * dx := le_mul_of_one_le_left hdx hv1
          linarith
        have hsx' : sx = 1 ∨ sx = -1 := hsx1 (by omega)
        obtain ⟨L', hL', hlast', hchain'⟩ := ih (u - 1) v (x + sx) y
          (err - dy + 0) (by omega) (by omega) hv0 hvd
          (by rw [mul_sub, mul_one]; linarith)
          hy
          (by rw [herr]; ring) (by omega)
        refine ⟨(x + sx, y) :: L', ?_, ?_, ?_⟩
        · rw [bres2Loop, if_neg hterm]
          simp only [if_pos hc1, if_neg hc2]
          rw [hL']
        · rw [List.getLast?_cons_cons]
          exact hlast'
        · rw [List.chain'_cons]
          refine ⟨⟨?_, ?_, ?_⟩, hchain'⟩
          · simp only [ne_eq, Prod.mk.injEq, not_and]
            intro hcx
            exfalso
            rcases hsx' with h | h <;> omega
          · rw [show x + sx - x = sx from by ring]
            exact abs_le.mpr ⟨by rcases hsx' with h | h <;> omega,
              by rcases hsx' with h | h <;> omega⟩
          · simp
      · -- only y steps
        have hv1 : 1 ≤ v := by
          by_contra hcon
          have hv00 : v = 0 := by omega
          have hu1' : 1 ≤ u := by
            rcases eq_or_lt_of_le hu0 with h | h
            · exact absurd ⟨h.symm, hv00⟩ huv
            · omega
          have hvdx0 : v * dx = 0 := by rw [hv00, zero_mul]
          have hdyu : dy ≤ u * dy := le_mul_of_one_le_left hdy hu1'
          linarith
        have hsy' : sy = 1 ∨ sy = -1 := hsy1 (by omega)
        obtain ⟨L', hL', hlast', hchain'⟩ := ih u (v - 1) x (y + sy)
          (err + dx) hu0 hud (by omega) (by omega)
          hx
          (by rw [mul_sub, mul_one]; linarith)
          (by rw [herr]; ring) (by omega)
        refine ⟨(x, y + sy) :: L', ?_, ?_, ?_⟩
        · rw [bres2Loop, if_neg hterm]
          simp only [if_neg hc1, if_pos hc2]
          rw [hL']
        · rw [List.getLast?_cons_cons]
          exact hlast'
        · rw [List.chain'_cons]
          refine ⟨⟨?_, ?_, ?_⟩, hchain'⟩
          · simp only [ne_eq, Prod.mk.injEq, not_and]
            intro _ hcy
            rcases hsy' with h | h <;> omega
          · simp
          · rw [show y + sy - y = sy from by ring]
            exact abs_le.mpr ⟨by rcases hsy' with h | h <;> omega,
              by rcases hsy' with h | h <;> omega⟩
      · -- impossible: neither axis steps while not at the end point
        exfalso
        push_neg at hc1 hc2
        have h3 : dx + dy ≤ 0 := by linarith
        exact huv ⟨by omega, by omega⟩

lemma bres2_spec (x0 y0 x1 y1 : Int) :
    ∃ L, bres2 x0 y0 x1 y1 = (x0, y0) :: L ∧
      ((x0, y0) :: L).getLast? = some (x1, y1) ∧
      List.Chain' adj2 ((x0, y0) :: L) := by
  have hsx1 : 0 < |x1 - x0| → isign (x1 - x0) = 1 ∨ isign (x1 - x0) = -1 := by
    intro h
    rw [abs_pos] at h
    unfold isign
    rcases lt_or_gt_of_ne h with hneg | hpos
    · right
      rw [if_neg (by omega), if_pos hneg]
    · left
      rw [if_pos hpos]
  have hsy1 : 0 < |y1 - y0| → isign (y1 - y0) = 1 ∨ isign (y1 - y0) = -1 := by
    intro h
    rw [abs_pos] at h
    unfold isign
    rcases lt_or_gt_of_ne h with hneg | hpos
    · right
      rw [if_neg (by omega), if_pos hneg]
    · left
      rw [if_pos hpos]
  obtain ⟨L, h1, h2, h3⟩ := bres2Loop_spec x1 y1 (isign (x1 - x0)) (isign (y1 - y0))
    |x1 - x0| |y1 - y0| (abs_nonneg _) (abs_nonneg _) hsx1 hsy1
    ((|x1 - x0| + |y1 - y0| + 1).toNat) |x1 - x0| |y1 - y0| x0 y0
    (|x1 - x0| - |y1 - y0|)
    (abs_nonneg _) (le_refl _) (abs_nonneg _) (le_refl _)
    (by rw [isign_mul_abs])
    (by rw [isign_mul_abs])
    (by ring)
    (by
      have h0 : (0:Int) ≤ |x1 - x0| + |y1 - y0| + 1 := by
        have := abs_nonneg (x1 - x0)
        have := abs_nonneg (y1 - y0)
        omega
      omega)
  exact ⟨L, by rw [bres2]; exact h1, h2, h3⟩

lemma drive3_spec (sd sa sb dd da db : Int)
    (hdd : 1 ≤ dd) (hda0 : 0 ≤ da) (hdad : da ≤ dd) (hdb0 : 0 ≤ db) (hdbd : db ≤ dd)
    (hsd : sd = 1 ∨ sd = -1)
    (hsa : -1 ≤ sa ∧ sa ≤ 1) (hsb : -1 ≤ sb ∧ sb ≤ 1) :
    ∀ (u : Nat) (d a b p1 p2 va vb : Int),
      0 ≤ va → va ≤ da → 0 ≤ vb → vb ≤ db →
      p1 = 2*da - dd - 2*(u : Int)*da + 2*va*dd →
      p2 = 2*db - dd - 2*(u : Int)*db + 2*vb*dd →
      2*da - 2*dd ≤ p1 → p1 ≤ 2*da - 1 →
      2*db - 2*dd ≤ p2 → p2 ≤ 2*db - 1 →
      ∃ L, drive3 sd sa sb dd da db u d a b p1 p2 = (d, a, b) :: L ∧
        ((d, a, b) :: L).getLast? = some (d + sd*(u : Int), a + sa*va, b + sb*vb) ∧
        List.Chain' adj3 ((d, a, b) :: L) := by
  intro u
  induction u with
  | zero =>
    intro d a b p1 p2 va vb hva0 hvad hvb0 hvbd hp1 hp2 hp1l hp1u hp2l hp2u
    push_cast at hp1 hp2
    have hva : va = 0 := by
      by_contra hcon
      have h1 : 1 ≤ va := by omega
      have h2 : dd ≤ va * dd := le_mul_of_one_le_left (by omega) h1
      linarith
    have hvb : vb = 0 := by
      by_contra hcon
      have h1 : 1 ≤ vb := by omega
      have h2 : dd ≤ vb * dd := le_mul_of_one_le_left (by omega) h1
      linarith
    refine ⟨[], rfl, ?_, List.chain'_singleton _⟩
    rw [hva, hvb]
    push_cast
    norm_num
  | succ f ih =>
    intro d a b p1 p2 va vb hva0 hvad hvb0 hvbd hp1 hp2 hp1l hp1u hp2l hp2u
    push_cast at hp1 hp2
    have hfda : 0 ≤ (f : Int) * da := mul_nonneg (by positivity) hda0
    have hfdb : 0 ≤ (f : Int) * db := mul_nonneg (by positivity) hdb0
    by_cases hc1 : 0 ≤ p1 <;> by_cases hc2 : 0 ≤ p2
    · -- both passive axes step
      have hva1 : 1 ≤ va := by
        by_contra hcon
        have hva00 : va * dd = 0 := by rw [show va = 0 from by omega, zero_mul]
        linarith
      have hvb1 : 1 ≤ vb := by
        by_contra hcon
        have hvb00 : vb * dd = 0 := by rw [show vb = 0 from by omega, zero_mul]
        linarith
      obtain ⟨L', hL', hlast', hchain'⟩ := ih (d + sd) (a + sa) (b + sb)
        (p1 - 2*dd + 2*da) (p2 - 2*dd + 2*db) (va - 1) (vb - 1)
        (by omega) (by omega) (by omega) (by omega)
        (by rw [hp1]; ring) (by rw [hp2]; ring)
        (by linarith) (by linarith) (by linarith) (by linarith)
      refine ⟨(d + sd, a + sa, b + sb) :: L', ?_, ?_, ?_⟩
      · rw [drive3]
        simp only [if_pos hc1, if_pos hc2]
        exact congrArg _ hL'
      · rw [List.getLast?_cons_cons, hlast']
        push_cast
        ring_nf
      · rw [List.chain'_cons]
        refine ⟨⟨?_, ?_, ?_, ?_⟩, hchain'⟩
        · simp only [ne_eq, Prod.mk.injEq, not_and]
          intro hcd
          exfalso
          rcases hsd with h | h <;> omega
        · rw [show d + sd - d = sd from by ring]
          exact abs_le.mpr ⟨by omega, by omega⟩
        · rw [show a + sa - a = sa from by ring]
          exact abs_le.mpr hsa
        · rw [show b + sb - b = sb from by ring]
          exact abs_le.mpr hsb
    · -- only the first passive axis steps
      have hva1 : 1 ≤ va := by
        by_contra hcon
        have hva00 : va * dd = 0 := by rw [show va = 0 from by omega, zero_mul]
        linarith
      obtain ⟨L', hL', hlast', hchain'⟩ := ih (d + sd) (a + sa) b
        (p1 - 2*dd + 2*da) (p2 + 2*db) (va - 1) vb
        (by omega) (by omega) hvb0 hvbd
        (by rw [hp1]; ring) (by rw [hp2]; ring)
        (by linarith) (by linarith) (by linarith) (by linarith)
      refine ⟨(d + sd, a + sa, b) :: L', ?_, ?_, ?_⟩
      · rw [drive3]
        simp only [if_pos hc1, if_neg hc2]
        exact congrArg _ hL'
      · rw [List.getLast?_cons_cons, hlast']
        push_cast
        ring_nf
      · rw [List.chain'_cons]
        refine ⟨⟨?_, ?_, ?_, ?_⟩, hchain'⟩
        · simp only [ne_eq, Prod.mk.injEq, not_and]
          intro hcd
          exfalso
          rcases hsd with h | h <;> omega
        · rw [show d + sd - d = sd from by ring]
          exact abs_le.mpr ⟨by omega, by omega⟩
        · rw [show a + sa - a = sa from by ring]
          exact abs_le.mpr hsa
        · simp
    · -- only the second passive axis steps
      have hvb1 : 1 ≤ vb := by
        by_contra hcon
        have hvb00 : vb * dd = 0 := by rw [show vb = 0 from by omega, zero_mul]
        linarith
      obtain ⟨L', hL', hlast', hchain'⟩ := ih (d + sd) a (b + sb)
        (p1 + 2*da) (p2 - 2*dd + 2*db) va (vb - 1)
        hva0 hvad (by omega) (by omega)
        (by rw [hp1]; ring) (by rw [hp2]; ring)
        (by linarith) (by linarith) (by linarith) (by linarith)
      refine ⟨(d + sd, a, b + sb) :: L', ?_, ?_, ?_⟩
      · rw [drive3]
        simp only [if_neg hc1, if_pos hc2]
        exact congrArg _ hL'
      · rw [List.getLast?_cons_cons, hlast']
        push_cast
        ring_nf
      · rw [List.chain'_cons]
        refine ⟨⟨?_, ?_, ?_, ?_⟩, hchain'⟩
        · simp only [ne_eq, Prod.mk.injEq, not_and]
          intro hcd
          exfalso
          rcases hsd with h | h <;> omega
        · rw [show d + sd - d = sd from by ring]
          exact abs_le.mpr ⟨by omega, by omega⟩
        · simp
        · rw [show b + sb - b = sb from by ring]
          exact abs_le.mpr hsb
    · -- only the driving axis steps
      obtain ⟨L', hL', hlast', hchain'⟩ := ih (d + sd) a b
        (p1 + 2*da) (p2 + 2*db) va vb
        hva0 hvad hvb0 hvbd
        (by rw [hp1]; ring) (by rw [hp2]; ring)
        (by linarith) (by linarith) (by linarith) (by linarith)
      refine ⟨(d + sd, a, b) :: L', ?_, ?_, ?_⟩
      · rw [drive3]
        simp only [if_neg hc1, if_neg hc2]
        exact congrArg _ hL'
      · rw [List.getLast?_cons_cons, hlast']
        push_cast
        ring_nf
      · rw [List.chain'_cons]
        refine ⟨⟨?_, ?_, ?_, ?_⟩, hchain'⟩
        · simp only [ne_eq, Prod.mk.injEq, not_and]
          intro hcd
          exfalso
          rcases hsd with h | h <;> omega
        · rw [show d + sd - d = sd from by ring]
          exact abs_le.mpr ⟨by omega, by omega⟩
        · simp
        · simp

lemma isign_one_or_neg_one {a : Int} (h : a ≠ 0) : isign a = 1 ∨ isign a = -1 := by
  unfold isign
  rcases lt_or_gt_of_ne h with hneg | hpos
  · right
    rw [if_neg (by omega), if_pos hneg]
  · left
    rw [if_pos hpos]

lemma isign_bounds (a : Int) : -1 ≤ isign a ∧ isign a ≤ 1 := by
  unfold isign
  split_ifs <;> omega

lemma adj3_permY (a b : Int × Int × Int) (h : adj3 a b) :
    adj3 (a.2.1, a.1, a.2.2) (b.2.1, b.1, b.2.2) := by
  obtain ⟨a1, a2, a3⟩ := a
  obtain ⟨b1, b2, b3⟩ := b
  obtain ⟨hne, h1, h2, h3⟩ := h
  refine ⟨?_, h2, h1, h3⟩
  intro hc
  apply hne
  simp only [Prod.mk.injEq] at hc ⊢
  tauto

lemma adj3_permZ (a b : Int × Int × Int) (h : adj3 a b) :
    adj3 (a.2.1, a.2.2, a.1) (b.2.1, b.2.2, b.1) := by
  obtain ⟨a1, a2, a3⟩ := a
  obtain ⟨b1, b2, b3⟩ := b
  obtain ⟨hne, h1, h2, h3⟩ := h
  refine ⟨?_, h2, h3, h1⟩
  intro hc
  apply hne
  simp only [Prod.mk.injEq] at hc ⊢
  tauto

lemma bres3_spec (x0 y0 z0 x1 y1 z1 : Int) :
    ∃ L, bres3 x0 y0 z0 x1 y1 z1 = (x0, y0, z0) :: L ∧
      ((x0, y0, z0) :: L).getLast? = some (x1, y1, z1) ∧
      List.Chain' adj3 ((x0, y0, z0) :: L) := by
  by_cases hX : |y1 - y0| ≤ |x1 - x0| ∧ |z1 - z0| ≤ |x1 - x0|
  · by_cases hdd0 : x1 - x0 = 0
    · have hy : y1 - y0 = 0 := by
        have h1 : |y1 - y0| = 0 := by
          have := hX.1
          rw [hdd0, abs_zero] at this
          exact le_antisymm this (abs_nonneg _)
        exact abs_eq_zero.mp h1
      have hz : z1 - z0 = 0 := by
        have h1 : |z1 - z0| = 0 := by
          have := hX.2
          rw [hdd0, abs_zero] at this
          exact le_antisymm this (abs_nonneg _)
        exact abs_eq_zero.mp h1
      refine ⟨[], ?_, ?_, List.chain'_singleton _⟩
      · rw [show x1 = x0 from by omega, show y1 = y0 from by omega,
          show z1 = z0 from by omega]
        exact bres3_self x0 y0 z0
      · rw [show x1 = x0 from by omega, show y1 = y0 from by omega,
          show z1 = z0 from by omega]
        rfl
    · have hdd : 1 ≤ |x1 - x0| := by
        have h1 := abs_nonneg (x1 - x0)
        have h2 : |x1 - x0| ≠ 0 := fun hc => hdd0 (abs_eq_zero.mp hc)
        omega
      obtain ⟨L, h1, h2, h3⟩ := drive3_spec (isign (x1 - x0)) (isign (y1 - y0))
        (isign (z1 - z0)) |x1 - x0| |y1 - y0| |z1 - z0|
        hdd (abs_nonneg _) hX.1 (abs_nonneg _) hX.2
        (isign_one_or_neg_one hdd0) (isign_bounds _) (isign_bounds _)
        ((|x1 - x0|).toNat) x0 y0 z0
        (2*|y1 - y0| - |x1 - x0|) (2*|z1 - z0| - |x1 - x0|) |y1 - y0| |z1 - z0|
        (abs_nonneg _) (le_refl _) (abs_nonneg _) (le_refl _)
        (by rw [Int.toNat_of_nonneg (abs_nonneg _)]; ring)
        (by rw [Int.toNat_of_nonneg (abs_nonneg _)]; ring)
        (by linarith [abs_nonneg (x1 - x0)]) (by linarith)
        (by linarith [abs_nonneg (x1 - x0)]) (by linarith)
      have hend : (x0 + isign (x1 - x0) * (((|x1 - x0|).toNat : Int)),
          y0 + isign (y1 - y0) * |y1 - y0|, z0 + isign (z1 - z0) * |z1 - z0|) =
          (x1, y1, z1) := by
        rw [Int.toNat_of_nonneg (abs_nonneg _), isign_mul_abs, isign_mul_abs, isign_mul_abs]
        simp only [Prod.mk.injEq]
        refine ⟨by ring, by ring, by ring⟩
      rw [hend] at h2
      refine ⟨L, ?_, h2, h3⟩
      rw [bres3, if_pos hX]
      exact h1
  · have hor : |x1 - x0| < |y1 - y0| ∨ |x1 - x0| < |z1 - z0| := by
      rcases not_and_or.mp hX with h | h
      · left
        exact not_le.mp h
      · right
        exact not_le.mp h
    by_cases hY : |z1 - z0| ≤ |y1 - y0|
    · -- y driving
      have hdd : 1 ≤ |y1 - y0| := by
        rcases hor with h | h
        · linarith [abs_nonneg (x1 - x0)]
        · linarith [abs_nonneg (x1 - x0)]
      have hdad : |x1 - x0| ≤ |y1 - y0| := by
        rcases hor with h | h <;> linarith
      have hy0' : y1 - y0 ≠ 0 := by
        intro hc
        rw [hc, abs_zero] at hdd
        omega
      obtain ⟨L, h1, h2, h3⟩ := drive3_spec (isign (y1 - y0)) (isign (x1 - x0))
        (isign (z1 - z0)) |y1 - y0| |x1 - x0| |z1 - z0|
        hdd (abs_nonneg _) hdad (abs_nonneg _) hY
        (isign_one_or_neg_one hy0') (isign_bounds _) (isign_bounds _)
        ((|y1 - y0|).toNat) y0 x0 z0
        (2*|x1 - x0| - |y1 - y0|) (2*|z1 - z0| - |y1 - y0|) |x1 - x0| |z1 - z0|
        (abs_nonneg _) (le_refl _) (abs_nonneg _) (le_refl _)
        (by rw [Int.toNat_of_nonneg (abs_nonneg _)]; ring)
        (by rw [Int.toNat_of_nonneg (abs_nonneg _)]; ring)
        (by linarith [abs_nonneg (y1 - y0)]) (by linarith)
        (by linarith [abs_nonneg (y1 - y0)]) (by linarith)
      have hend : (y0 + isign (y1 - y0) * (((|y1 - y0|).toNat : Int)),
          x0 + isign (x1 - x0) * |x1 - x0|, z0 + isign (z1 - z0) * |z1 - z0|) =
          (y1, x1, z1) := by
        rw [Int.toNat_of_nonneg (abs_nonneg _), isign_mul_abs, isign_mul_abs, isign_mul_abs]
        simp only [Prod.mk.injEq]
        refine ⟨by ring, by ring, by ring⟩
      rw [hend] at h2
      have hcons : ((x0, y0, z0) :: L.map (fun p => (p.2.1, p.1, p.2.2))) =
          ((y0, x0, z0) :: L).map (fun p => (p.2.1, p.1, p.2.2)) := by
        rw [List.map_cons]
      refine ⟨L.map (fun p => (p.2.1, p.1, p.2.2)), ?_, ?_, ?_⟩
      · rw [bres3, if_neg hX, if_pos hY, h1, List.map_cons]
      · rw [hcons, List.getLast?_map, h2]
        rfl
      · rw [hcons, List.chain'_map]
        exact h3.imp (fun a b hab => adj3_permY a b hab)
    · -- z driving
      have hzy : |y1 - y0| < |z1 - z0| := not_le.mp hY
      have hdd : 1 ≤ |z1 - z0| := by
        rcases hor with h | h
        · linarith [abs_nonneg (x1 - x0)]
        · linarith [abs_nonneg (x1 - x0)]
      have hdad : |x1 - x0| ≤ |z1 - z0| := by
        rcases hor with h | h <;> linarith
      have hz0' : z1 - z0 ≠ 0 := by
        intro hc
        rw [hc, abs_zero] at hdd
        omega
      obtain ⟨L, h1, h2, h3⟩ := drive3_spec (isign (z1 - z0)) (isign (x1 - x0))
        (isign (y1 - y0)) |z1 - z0| |x1 - x0| |y1 - y0|
        hdd (abs_nonneg _) hdad (abs_nonneg _) (le_of_lt hzy)
        (isign_one_or_neg_one hz0') (isign_bounds _) (isign_bounds _)
        ((|z1 - z0|).toNat) z0 x0 y0
        (2*|x1 - x0| - |z1 - z0|) (2*|y1 - y0| - |z1 - z0|) |x1 - x0| |y1 - y0|
        (abs_nonneg _) (le_refl _) (abs_nonneg _) (le_refl _)
        (by rw [Int.toNat_of_nonneg (abs_nonneg _)]; ring)
        (by rw [Int.toNat_of_nonneg (abs_nonneg _)]; ring)
        (by linarith [abs_nonneg (z1 - z0)]) (by linarith)
        (by linarith [abs_nonneg (z1 - z0)]) (by linarith)
      have hend : (z0 + isign (z1 - z0) * (((|z1 - z0|).toNat : Int)),
          x0 + isign (x1 - x0) * |x1 - x0|, y0 + isign (y1 - y0) * |y1 - y0|) =
          (z1, x1, y1) := by
        rw [Int.toNat_of_nonneg (abs_nonneg _), isign_mul_abs, isign_mul_abs, isign_mul_abs]
        simp only [Prod.mk.injEq]
        refine ⟨by ring, by ring, by ring⟩
      rw [hend] at h2
      have hcons : ((x0, y0, z0) :: L.map (fun p => (p.2.1, p.2.2, p.1))) =
          ((z0, x0, y0) :: L).map (fun p => (p.2.1, p.2.2, p.1)) := by
        rw [List.map_cons]
      refine ⟨L.map (fun p => (p.2.1, p.2.2, p.1)), ?_, ?_, ?_⟩
      · rw [bres3, if_neg hX, if_neg hY, h1, List.map_cons]
      · rw [hcons, List.getLast?_map, h2]
        rfl
      · rw [hcons, List.chain'_map]
        exact h3.imp (fun a b hab => adj3_permZ a b hab)

/-- C3: for a single segment, the marked cells form a gap-free path
from the start point to the end point: the path list starts at the
start cell, ends at the end cell, and consecutive cells are distinct
and differ by at most one unit in each coordinate (8-connected in 2D,
26-connected in 3D); and drawing the segment marks exactly the cells
of that list. -/
theorem c3_path_connectivity (x0 y0 z0 x1 y1 z1 : Int)
    (hx0 : 0 ≤ x0) (hy0 : 0 ≤ y0) (hz0 : 0 ≤ z0)
    (hx1 : 0 ≤ x1) (hy1 : 0 ≤ y1) (hz1 : 0 ≤ z1) :
    (∃ L, bres2 x0 y0 x1 y1 = (x0, y0) :: L ∧
      ((x0, y0) :: L).getLast? = some (x1, y1) ∧
      List.Chain' adj2 ((x0, y0) :: L)) ∧
    (∀ (g : (Int × Int) → Int) (p : Int × Int),
      draw2 g [x0, y0, x1, y1] p = if p ∈ bres2 x0 y0 x1 y1 then 1 else g p) ∧
    (∃ L, bres3 x0 y0 z0 x1 y1 z1 = (x0, y0, z0) :: L ∧
      ((x0, y0, z0) :: L).getLast? = some (x1, y1, z1) ∧
      List.Chain' adj3 ((x0, y0, z0) :: L)) ∧
    (∀ (g : (Int × Int × Int) → Int) (p : Int × Int × Int),
      draw3 g [x0, y0, z0, x1, y1, z1] p =
        if p ∈ bres3 x0 y0 z0 x1 y1 z1 then 1 else g p) :=
  ⟨bres2_spec x0 y0 x1 y1, fun _ _ => rfl, bres3_spec x0 y0 z0 x1 y1 z1, fun _ _ => rfl⟩

/-- C3 witness: the path property at the concrete segment with
endpoints `(0,0,0)` and `(2,1,3)`. -/
theorem c3_path_connectivity_witness :
    ((0:Int) ≤ 0 ∧ (0:Int) ≤ 0 ∧ (0:Int) ≤ 0 ∧
     (0:Int) ≤ 2 ∧ (0:Int) ≤ 1 ∧ (0:Int) ≤ 3) ∧
    ((∃ L, bres2 0 0 2 1 = ((0:Int), (0:Int)) :: L ∧
      (((0:Int), (0:Int)) :: L).getLast? = some (2, 1) ∧
      List.Chain' adj2 (((0:Int), (0:Int)) :: L)) ∧
    (∀ (g : (Int × Int) → Int) (p : Int × Int),
      draw2 g [0, 0, 2, 1] p = if p ∈ bres2 0 0 2 1 then 1 else g p) ∧
    (∃ L, bres3 0 0 0 2 1 3 = ((0:Int), (0:Int), (0:Int)) :: L ∧
      (((0:Int), (0:Int), (0:Int)) :: L).getLast? = some (2, 1, 3) ∧
      List.Chain' adj3 (((0:Int), (0:Int), (0:Int)) :: L)) ∧
    (∀ (g : (Int × Int × Int) → Int) (p : Int × Int × Int),
      draw3 g [0, 0, 0, 2, 1, 3] p = if p ∈ bres3 0 0 0 2 1 3 then 1 else g p)) :=
  ⟨⟨by decide, by decide, by decide, by decide, by decide, by decide⟩,
   c3_path_connectivity 0 0 0 2 1 3 (by decide) (by decide) (by decide)
     (by decide) (by decide) (by decide)⟩
